import Mathlib

/-!
Verification of the beads-lite issue tracker core against its specification.

The development shallowly embeds the Go sources:
  * the entity model (`Status`, `IssueType`, `Resolution`, `Issue`,
    `Issue.Validate`, `DepType`, `Dependency`, `Dependency.Validate`),
  * the SQLite-backed store (`CreateIssue`, `GetIssue`, `UpdateIssue`,
    `CloseIssue`, `ListIssues`, `AddDependency`, `RemoveDependency`,
    `RemoveAllDependencies`, `GetDependencies`, `GetReadyWork`,
    `DeleteIssue`, `WithTransaction`),
  * the JSONL bulk exchange (`ExportToJSONL`, `ImportFromJSONL`),
  * the command layer's close path (`cmdClose`).

The database state is a pair of lists (rows of the `issues` and
`dependencies` tables, in insertion order).  Go `string` enums become
Lean `String`; `time.Time` instants become `Nat`; `time.Now()` becomes an
explicit `now : Nat` argument.  SQL statements are translated row by row:
`INSERT` appends (failing on a primary-key duplicate), `UPDATE`/`DELETE`
map/filter the row list, and a transaction that returns an error leaves
the pre-transaction state observable (rollback).
-/

deriving instance DecidableEq for Except

namespace BeadsLite

/-! ### Entity model (types portion of the source) -/

/-- ASCII whitespace, the fragment of Unicode whitespace these issue
titles exercise. -/
def isSpace (c : Char) : Bool :=
  c == ' ' || c == '\t' || c == '\n' || c == '\r'

/-- Go's `strings.TrimSpace`: drop leading and trailing whitespace. -/
def trimSpace (s : String) : String :=
  ⟨((s.data.dropWhile isSpace).reverse.dropWhile isSpace).reverse⟩

/-- Status of an issue, a Go string enum. -/
abbrev Status := String

def StatusOpen : Status := "open"

def StatusInProgress : Status := "in_progress"

def StatusClosed : Status := "closed"

/-- `Status.Valid` returns true if the status is a known valid status. -/
def Status.Valid (s : Status) : Bool :=
  s == StatusOpen || s == StatusInProgress || s == StatusClosed

/-- Category of an issue, a Go string enum. -/
abbrev IssueType := String

def IssueTypeTask : IssueType := "task"

def IssueTypeBug : IssueType := "bug"

def IssueTypeFeature : IssueType := "feature"

def IssueTypeEpic : IssueType := "epic"

/-- `IssueType.Valid` returns true if the issue type is a known valid type. -/
def IssueType.Valid (t : IssueType) : Bool :=
  t == IssueTypeTask || t == IssueTypeBug || t == IssueTypeFeature || t == IssueTypeEpic

/-- Why an issue was closed, a Go string enum. -/
abbrev Resolution := String

def ResolutionDone : Resolution := "done"

def ResolutionWontfix : Resolution := "wontfix"

def ResolutionDuplicate : Resolution := "duplicate"

/-- `Resolution.Valid`: the empty string is valid (treated as "done" for
backwards compatibility). -/
def Resolution.Valid (r : Resolution) : Bool :=
  r == "" || r == ResolutionDone || r == ResolutionWontfix || r == ResolutionDuplicate

/-- An issue row: trackable work item with dependencies. -/
structure Issue where
  id : String
  title : String
  description : String
  status : Status
  priority : Int
  itype : IssueType
  createdAt : Nat
  updatedAt : Nat
  closedAt : Option Nat
  resolution : Resolution
deriving DecidableEq, Repr

/-- `Issue.Validate` checks if the issue has valid field values. -/
def Issue.Validate (i : Issue) : Except String Unit :=
  if trimSpace i.title == "" then .error "title cannot be empty"
  else if !i.status.Valid then .error "invalid status"
  else if !i.itype.Valid then .error "invalid issue type"
  else if i.priority < 0 || i.priority > 4 then .error "priority must be 0-4"
  else if !i.resolution.Valid then .error "invalid resolution"
  else .ok ()

/-- Type of a dependency edge, a Go string enum. -/
abbrev DepType := String

def DepBlocks : DepType := "blocks"

def DepParentChild : DepType := "parent-child"

def DepRelated : DepType := "related"

/-- `DepType.Valid` returns true if the dependency type is a known valid type. -/
def DepType.Valid (d : DepType) : Bool :=
  d == DepBlocks || d == DepParentChild || d == DepRelated

/-- A dependency row: an edge in the issue dependency graph. -/
structure Dependency where
  issueID : String
  dependsOnID : String
  dtype : DepType
  createdAt : Nat
deriving DecidableEq, Repr

/-- `NewDependency` creates a new dependency with the current timestamp. -/
def NewDependency (issueID dependsOnID : String) (depType : DepType) (now : Nat) : Dependency :=
  ⟨issueID, dependsOnID, depType, now⟩

/-- `Dependency.Validate` checks if the dependency has valid field values. -/
def Dependency.Validate (d : Dependency) : Except String Unit :=
  if d.issueID == "" then .error "issue_id cannot be empty"
  else if d.dependsOnID == "" then .error "depends_on_id cannot be empty"
  else if !d.dtype.Valid then .error "invalid dependency type"
  else if d.issueID == d.dependsOnID then .error "issue cannot depend on itself"
  else .ok ()

/-! ### Persistence store

A `Store` is the visible database state: the rows of the `issues` and
`dependencies` tables in insertion order.  The schema's primary keys
(`issues.id` and `(issue_id, depends_on_id, type)`) surface as the
duplicate checks in the insert operations. -/

structure Store where
  issues : List Issue
  deps : List Dependency
deriving DecidableEq, Repr

def Store.empty : Store := ⟨[], []⟩

/-- `CreateIssue` validates and inserts a new issue; the primary key on
`issues.id` rejects a duplicate id. -/
def CreateIssue (st : Store) (issue : Issue) : Except String Store :=
  match issue.Validate with
  | .error e => .error e
  | .ok _ =>
    if st.issues.any (fun i => i.id == issue.id) then .error "insert issue: duplicate id"
    else .ok { st with issues := st.issues ++ [issue] }

/-- `GetIssue` retrieves an issue by ID, or the `ErrIssueNotFound` error. -/
def GetIssue (st : Store) (id : String) : Except String Issue :=
  match st.issues.find? (fun i => i.id == id) with
  | some i => .ok i
  | none => .error "issue not found"

/-- `UpdateIssue` validates, then overwrites the mutable fields of the row
with matching id (an UPDATE matching no row succeeds silently). -/
def UpdateIssue (st : Store) (issue : Issue) (now : Nat) : Except String Store :=
  match issue.Validate with
  | .error e => .error e
  | .ok _ => .ok { st with issues := st.issues.map (fun i =>
      if i.id == issue.id then
        { i with title := issue.title, description := issue.description,
                 status := issue.status, priority := issue.priority,
                 itype := issue.itype, updatedAt := now,
                 closedAt := issue.closedAt, resolution := issue.resolution }
      else i) }

/-- `CloseIssue` marks the row with matching id closed with the given
resolution (a plain UPDATE: no validation, no error on a missing id). -/
def CloseIssue (st : Store) (id : String) (resolution : Resolution) (now : Nat) : Store :=
  { st with issues := st.issues.map (fun i =>
      if i.id == id then
        { i with status := StatusClosed, updatedAt := now,
                 closedAt := some now, resolution := resolution }
      else i) }

/-- Row order produced by `ORDER BY priority ASC, created_at ASC`. -/
def issueLE (a b : Issue) : Prop :=
  a.priority < b.priority ∨ (a.priority = b.priority ∧ a.createdAt ≤ b.createdAt)

instance : DecidableRel issueLE := fun a b => by
  unfold issueLE; infer_instance

/-- `ListIssues` returns all issues ordered by priority then created_at. -/
def ListIssues (st : Store) : List Issue :=
  List.insertionSort issueLE st.issues

/-- `AddDependency` validates and inserts an edge; the composite primary
key rejects an exact duplicate triple.  No existence check is made on
either endpoint. -/
def AddDependency (st : Store) (issueID dependsOnID : String) (depType : DepType)
    (now : Nat) : Except String Store :=
  let dep := NewDependency issueID dependsOnID depType now
  match dep.Validate with
  | .error e => .error e
  | .ok _ =>
    if st.deps.any (fun d =>
        d.issueID == issueID && d.dependsOnID == dependsOnID && d.dtype == depType) then
      .error "duplicate dependency"
    else .ok { st with deps := st.deps ++ [dep] }

/-- `RemoveDependency` deletes the matching triple; deleting zero rows is
not an error. -/
def RemoveDependency (st : Store) (issueID dependsOnID : String) (depType : DepType) : Store :=
  { st with deps := st.deps.filter (fun d =>
      !(d.issueID == issueID && d.dependsOnID == dependsOnID && d.dtype == depType)) }

/-- `RemoveAllDependencies` deletes every edge where the issue is the
dependent (the `issue_id` side only). -/
def RemoveAllDependencies (st : Store) (issueID : String) : Store :=
  { st with deps := st.deps.filter (fun d => !(d.issueID == issueID)) }

/-- `GetDependencies` returns the outgoing edges of one issue. -/
def GetDependencies (st : Store) (issueID : String) : List Dependency :=
  st.deps.filter (fun d => d.issueID == issueID)

/-- `DeleteIssue` removes the issue and every edge touching it (either
endpoint) in one transaction; if the issue row does not exist the
transaction rolls back and the error is returned, leaving the
dependency deletion unobservable.  `runDeleteIssue` exposes the
post-call state together with the outcome. -/
def DeleteIssue (st : Store) (id : String) : Except String Store :=
  if st.issues.any (fun i => i.id == id) then
    .ok { issues := st.issues.filter (fun i => !(i.id == id)),
          deps := st.deps.filter (fun d => !(d.issueID == id || d.dependsOnID == id)) }
  else .error "issue not found"

def runDeleteIssue (st : Store) (id : String) : Store × Except String Unit :=
  match DeleteIssue st id with
  | .error e => (st, .error e)
  | .ok st' => (st', .ok ())

/-! ### Ready-work engine

`GetReadyWork` evaluates the recursive CTE: the seed selects dependents
of `blocks` edges whose prerequisite row exists and is not closed; the
recursive part adds dependents of `parent-child` edges whose
prerequisite is already blocked; the union iterates to a fixed point.
The iteration below carries enough fuel (`deps.length`) to reach the
fixed point, which `blockedIter_closed` proves. -/

def directlyBlocked (st : Store) : List String :=
  (st.deps.filter (fun d => d.dtype == DepBlocks &&
      st.issues.any (fun i => i.id == d.dependsOnID && i.status != StatusClosed))).map
    (fun d => d.issueID)

def blockedStep (deps : List Dependency) (acc : List String) : List String :=
  (deps.filter (fun d => d.dtype == DepParentChild &&
      acc.contains d.dependsOnID && !acc.contains d.issueID)).map (fun d => d.issueID)

def blockedIter : Nat → List Dependency → List String → List String
  | 0, _, acc => acc
  | fuel+1, deps, acc =>
    let fresh := blockedStep deps acc
    if fresh.isEmpty then acc else blockedIter fuel deps (acc ++ fresh)

def blockedList (st : Store) : List String :=
  blockedIter st.deps.length st.deps (directlyBlocked st)

/-- `GetReadyWork` returns open/in_progress issues whose id is not in the
blocked set, ordered by priority then created_at. -/
def GetReadyWork (st : Store) : List Issue :=
  List.insertionSort issueLE (st.issues.filter (fun i =>
    (i.status == StatusOpen || i.status == StatusInProgress) &&
    !((blockedList st).contains i.id)))

/-- The specification's blocked set, written as the least fixed point the
spec describes: seeded by dependents of `blocks` edges whose
prerequisite exists and is not closed, and closed under propagation
along `parent-child` edges from a blocked prerequisite to its
dependent. -/
inductive Blocked (st : Store) : String → Prop where
  | direct (d : Dependency) (b : Issue) :
      d ∈ st.deps → d.dtype = DepBlocks → b ∈ st.issues → b.id = d.dependsOnID →
      b.status ≠ StatusClosed → Blocked st d.issueID
  | child (d : Dependency) :
      d ∈ st.deps → d.dtype = DepParentChild → Blocked st d.dependsOnID →
      Blocked st d.issueID

/-! ### Auxiliary definitions for the verification -/

/-- Closure property: no `parent-child` edge leads out of `l`. -/
def PCClosed (deps : List Dependency) (l : List String) : Prop :=
  ∀ d ∈ deps, d.dtype = DepParentChild → d.dependsOnID ∈ l → d.issueID ∈ l

/-- The ids a `parent-child` propagation step may ever add. -/
def pcTargets (deps : List Dependency) : Finset String :=
  ((deps.filter (fun d => d.dtype == DepParentChild)).map (fun d => d.issueID)).toFinset

instance : IsTotal Issue issueLE := by
  constructor
  intro a b
  unfold issueLE
  rcases lt_trichotomy a.priority b.priority with h | h | h
  · exact Or.inl (Or.inl h)
  · rcases Nat.le_total a.createdAt b.createdAt with h2 | h2
    · exact Or.inl (Or.inr ⟨h, h2⟩)
    · exact Or.inr (Or.inr ⟨h.symm, h2⟩)
  · exact Or.inr (Or.inl h)

instance : IsTrans Issue issueLE := by
  constructor
  intro a b c hab hbc
  unfold issueLE at *
  rcases hab with h1 | ⟨h1, h1'⟩ <;> rcases hbc with h2 | ⟨h2, h2'⟩
  · exact Or.inl (h1.trans h2)
  · exact Or.inl (h2 ▸ h1)
  · exact Or.inl (h1 ▸ h2)
  · exact Or.inr ⟨h1.trans h2, h1'.trans h2'⟩

def relatedPairStore : Store :=
  ⟨[⟨"bl-0001", "Task A", "", "open", 2, "task", 1, 1, none, ""⟩,
    ⟨"bl-0002", "Task B", "", "open", 2, "task", 2, 2, none, ""⟩],
   [⟨"bl-0001", "bl-0002", "related", 3⟩]⟩

def blocksCycleStore : Store :=
  ⟨[⟨"bl-0001", "Task A", "", "open", 2, "task", 1, 1, none, ""⟩,
    ⟨"bl-0002", "Task B", "", "open", 2, "task", 2, 2, none, ""⟩],
   [⟨"bl-0002", "bl-0001", "blocks", 3⟩]⟩

/-- The command layer's close path (`cmdClose`): reject an invalid
resolution before touching the store, then verify the issue exists, then
run the store's `CloseIssue` update. -/
def CloseIssueCmd (st : Store) (id : String) (resolution : Resolution) (now : Nat) :
    Except String Store :=
  if !resolution.Valid then .error "invalid resolution"
  else
    match GetIssue st id with
    | .error e => .error e
    | .ok _ => .ok (CloseIssue st id resolution now)

def deleteDemoStore : Store :=
  ⟨[⟨"bl-0001", "Task A", "", "open", 2, "task", 1, 1, none, ""⟩,
    ⟨"bl-0002", "Task B", "", "open", 2, "task", 2, 2, none, ""⟩],
   [⟨"bl-0002", "bl-0001", "blocks", 3⟩, ⟨"bl-0001", "bl-0002", "related", 4⟩]⟩

def closeDemoStore : Store :=
  ⟨[⟨"bl-0001", "Task A", "", "open", 2, "task", 1, 1, none, ""⟩], []⟩

def missingDemoStore : Store :=
  ⟨[⟨"bl-0001", "Task A", "", "open", 2, "task", 1, 1, none, ""⟩],
   [⟨"bl-0001", "bl-0002", "blocks", 3⟩]⟩

def missingDemoIssue : Issue :=
  ⟨"bl-9999", "Ghost", "", "open", 2, "task", 5, 5, none, ""⟩

/-! ### Bulk exchange (JSONL import / export)

`ExportToJSONL` lists all issues, re-sorts them by ascending id, and
emits one record per issue embedding its outgoing edges.  A record of
the import stream is modelled after the pre-scan of non-blank lines:
`some ex` is a line that `json.Unmarshal` parses to the record `ex`,
`none` is a malformed line.  `ImportFromJSONL` processes all records
inside one transaction; `runImport` exposes the observable state after
the call, which on any error is the pre-import state (rollback). -/

structure DependencyExport where
  dependsOn : String
  dtype : DepType
deriving DecidableEq, Repr

structure IssueExport where
  id : String
  title : String
  description : String
  status : Status
  priority : Int
  itype : IssueType
  createdAt : Nat
  updatedAt : Nat
  closedAt : Option Nat
  resolution : Resolution
  dependencies : List DependencyExport
deriving DecidableEq, Repr

/-- `toIssueExport` converts an issue and its outgoing edges to a record. -/
def toIssueExport (issue : Issue) (deps : List Dependency) : IssueExport :=
  ⟨issue.id, issue.title, issue.description, issue.status, issue.priority, issue.itype,
   issue.createdAt, issue.updatedAt, issue.closedAt, issue.resolution,
   deps.map (fun d => ⟨d.dependsOnID, d.dtype⟩)⟩

/-- The issue carried by a record (all fields, including timestamps and
resolution, come from the record). -/
def issueFromExport (ex : IssueExport) : Issue :=
  ⟨ex.id, ex.title, ex.description, ex.status, ex.priority, ex.itype,
   ex.createdAt, ex.updatedAt, ex.closedAt, ex.resolution⟩

/-- Export's `sort.Slice` comparator: ascending id. -/
def idLE (a b : Issue) : Prop := a.id ≤ b.id

instance : DecidableRel idLE := fun a b => by
  unfold idLE; infer_instance

/-- `ExportToJSONL`: all issues sorted by id, each with its edges. -/
def ExportToJSONL (st : Store) : List IssueExport :=
  (List.insertionSort idLE st.issues).map (fun i => toIssueExport i (GetDependencies st i.id))

structure ImportStats where
  created : Nat
  updated : Nat
deriving DecidableEq, Repr

inductive ImportErr where
  | parseError (line : Nat)
  | storeError (line : Nat) (msg : String)
deriving DecidableEq, Repr

/-- Add a record's dependency list left to right through `AddDependency`. -/
def addExportDeps (st : Store) (id : String) (ds : List DependencyExport)
    (lineNo now : Nat) : Except ImportErr Store :=
  match ds with
  | [] => .ok st
  | d :: rest =>
    match AddDependency st id d.dependsOn d.dtype now with
    | .error e => .error (.storeError lineNo e)
    | .ok st' => addExportDeps st' id rest lineNo now

/-- One record of the import: update an existing issue (clearing its
outgoing edges first) or create it fresh, then add the record's edges.
The boolean reports whether the record created a new issue. -/
def importRecord (st : Store) (ex : IssueExport) (lineNo now : Nat) :
    Except ImportErr (Store × Bool) :=
  match GetIssue st ex.id with
  | .ok _ =>
    match UpdateIssue st (issueFromExport ex) now with
    | .error e => .error (.storeError lineNo e)
    | .ok st1 =>
      match addExportDeps (RemoveAllDependencies st1 ex.id) ex.id ex.dependencies
          lineNo now with
      | .error e => .error e
      | .ok st2 => .ok (st2, false)
  | .error _ =>
    match CreateIssue st (issueFromExport ex) with
    | .error e => .error (.storeError lineNo e)
    | .ok st1 =>
      match addExportDeps st1 ex.id ex.dependencies lineNo now with
      | .error e => .error e
      | .ok st2 => .ok (st2, true)

/-- The per-line loop of `ImportFromJSONL`; `lineNo` is the 1-based index
of the next record among the non-blank lines. -/
def importLoop (now : Nat) (st : Store) (stats : ImportStats) (lineNo : Nat) :
    List (Option IssueExport) → Except ImportErr (Store × ImportStats)
  | [] => .ok (st, stats)
  | none :: _ => .error (.parseError lineNo)
  | some ex :: rest =>
    match importRecord st ex lineNo now with
    | .error e => .error e
    | .ok (st', created) =>
      importLoop now st'
        (if created then ⟨stats.created + 1, stats.updated⟩
         else ⟨stats.created, stats.updated + 1⟩) (lineNo + 1) rest

def ImportFromJSONL (st : Store) (lines : List (Option IssueExport)) (now : Nat) :
    Except ImportErr (Store × ImportStats) :=
  importLoop now st ⟨0, 0⟩ 1 lines

/-- The observable outcome of an import call: on any error the enclosing
transaction rolls back, so the store keeps its pre-import state. -/
def runImport (st : Store) (lines : List (Option IssueExport)) (now : Nat) :
    Store × Except ImportErr ImportStats :=
  match ImportFromJSONL st lines now with
  | .error e => (st, .error e)
  | .ok (st', stats) => (st', .ok stats)

/-- The identifying triple of an edge, the dependency table's key. -/
def depKey (d : Dependency) : String × String × String :=
  (d.issueID, d.dependsOnID, d.dtype)

/-- A store reachable through the store's own mutating interface: ids are
unique and rows valid (every row was validated on insert or update), the
edge triples are unique (primary key), and every edge's dependent issue
exists (edges are only ever added for an issue in hand). -/
def WellFormed (st : Store) : Prop :=
  (st.issues.map (fun i => i.id)).Nodup ∧
  (∀ i ∈ st.issues, i.Validate = .ok ()) ∧
  (∀ d ∈ st.deps, d.Validate = .ok ()) ∧
  (st.deps.map depKey).Nodup ∧
  (∀ d ∈ st.deps, ∃ i ∈ st.issues, i.id = d.issueID)

def roundTripDemoStore : Store :=
  ⟨[⟨"bl-0002", "Task B", "", "open", 2, "task", 2, 2, none, ""⟩,
    ⟨"bl-0001", "Task A", "", "open", 1, "task", 1, 1, none, ""⟩,
    ⟨"bl-0003", "Task C", "", "closed", 2, "task", 3, 4, some 4, "done"⟩],
   [⟨"bl-0002", "bl-0001", "blocks", 5⟩, ⟨"bl-0002", "bl-0003", "blocks", 6⟩,
    ⟨"bl-0001", "bl-0002", "related", 7⟩]⟩

def importDemoRecord : IssueExport :=
  ⟨"bl-0001", "Task A", "", "open", 2, "task", 1, 1, none, "", []⟩

def importDemoLines : List (Option IssueExport) :=
  [some importDemoRecord, none]

def danglingCexStore : Store :=
  ⟨[⟨"bl-x", "Task X", "", "open", 2, "task", 1, 1, none, ""⟩,
    ⟨"bl-p", "Parent P", "", "open", 2, "task", 2, 2, none, ""⟩,
    ⟨"bl-k", "Blocker K", "", "open", 2, "task", 3, 3, none, ""⟩],
   [⟨"bl-x", "bl-ghost", "blocks", 4⟩, ⟨"bl-x", "bl-p", "parent-child", 5⟩,
    ⟨"bl-p", "bl-k", "blocks", 6⟩]⟩

def danglingDemoStore : Store :=
  ⟨[⟨"bl-x", "Task X", "", "open", 2, "task", 1, 1, none, ""⟩],
   [⟨"bl-x", "bl-ghost", "blocks", 4⟩]⟩

/-! ### The blocked-set iteration computes the least fixed point -/

theorem map_eq_self_of_mem {α : Type} {l : List α} {f : α → α}
    (h : ∀ x ∈ l, f x = x) : l.map f = l := by
  induction l with
  | nil => rfl
  | cons x xs ih =>
    simp only [List.map_cons]
    rw [h x (by simp), ih (fun y hy => h y (by simp [hy]))]

theorem blockedStep_eq_nil_iff (deps : List Dependency) (acc : List String) :
    blockedStep deps acc = [] ↔ PCClosed deps acc := by
  unfold blockedStep PCClosed
  rw [List.map_eq_nil_iff, List.filter_eq_nil_iff]
  constructor
  · intro h d hd hty hp
    have h2 := h d hd
    simp at h2
    tauto
  · intro h d hd
    have h2 := h d hd
    simp
    tauto

theorem mem_blockedIter_of_mem_acc {x : String} :
    ∀ (fuel : Nat) (deps : List Dependency) (acc : List String),
      x ∈ acc → x ∈ blockedIter fuel deps acc := by
  intro fuel
  induction fuel with
  | zero => intro deps acc h; simpa [blockedIter] using h
  | succ n ih =>
    intro deps acc h
    simp only [blockedIter]
    split
    · exact h
    · exact ih deps _ (List.mem_append_left _ h)

theorem blockedIter_sound (st : Store) {x : String} :
    ∀ (fuel : Nat) (acc : List String),
      (∀ y ∈ acc, Blocked st y) → x ∈ blockedIter fuel st.deps acc → Blocked st x := by
  intro fuel
  induction fuel with
  | zero => intro acc hacc hx; exact hacc x (by simpa [blockedIter] using hx)
  | succ n ih =>
    intro acc hacc hx
    simp only [blockedIter] at hx
    split at hx
    · exact hacc x hx
    · refine ih (acc ++ blockedStep st.deps acc) ?_ hx
      intro y hy
      rcases List.mem_append.mp hy with h | h
      · exact hacc y h
      · unfold blockedStep at h
        rcases List.mem_map.mp h with ⟨d, hd, rfl⟩
        rcases List.mem_filter.mp hd with ⟨hdm, hpred⟩
        simp only [Bool.and_eq_true, beq_iff_eq, Bool.not_eq_true'] at hpred
        obtain ⟨⟨hty, hcont⟩, -⟩ := hpred
        exact Blocked.child d hdm hty (hacc _ (List.elem_iff.mp hcont))

theorem blockedIter_closed :
    ∀ (fuel : Nat) (deps : List Dependency) (acc : List String),
      (pcTargets deps \ acc.toFinset).card ≤ fuel →
      PCClosed deps (blockedIter fuel deps acc) := by
  intro fuel
  induction fuel with
  | zero =>
    intro deps acc hcard
    simp only [Nat.le_zero, Finset.card_eq_zero, Finset.sdiff_eq_empty_iff_subset] at hcard
    simp only [blockedIter]
    intro d hd hty hp
    have : d.issueID ∈ pcTargets deps := by
      unfold pcTargets
      simp only [List.mem_toFinset, List.mem_map]
      exact ⟨d, List.mem_filter.mpr ⟨hd, by simp [hty]⟩, rfl⟩
    simpa using hcard this
  | succ n ih =>
    intro deps acc hcard
    simp only [blockedIter]
    split
    · next hemp =>
      exact (blockedStep_eq_nil_iff deps acc).mp (List.isEmpty_iff.mp hemp)
    · next hemp =>
      refine ih deps _ ?_
      have hne : blockedStep deps acc ≠ [] := fun h => hemp (by simp [h])
      rcases List.exists_mem_of_ne_nil _ hne with ⟨a, ha⟩
      have hmem : a ∈ pcTargets deps ∧ a ∉ acc := by
        unfold blockedStep at ha
        rcases List.mem_map.mp ha with ⟨d, hd, rfl⟩
        rcases List.mem_filter.mp hd with ⟨hdm, hpred⟩
        simp only [Bool.and_eq_true, beq_iff_eq, Bool.not_eq_true'] at hpred
        refine ⟨?_, ?_⟩
        · unfold pcTargets
          simp only [List.mem_toFinset, List.mem_map]
          exact ⟨d, List.mem_filter.mpr ⟨hdm, by simp [hpred.1.1]⟩, rfl⟩
        · intro hc
          have h2 := hpred.2
          simp at h2
          exact h2 hc
      have hss : pcTargets deps \ (acc ++ blockedStep deps acc).toFinset ⊂
          pcTargets deps \ acc.toFinset := by
        refine Finset.ssubset_iff_of_subset ?_ |>.mpr ?_
        · refine Finset.sdiff_subset_sdiff (le_refl _) ?_
          intro y hy
          simp only [List.toFinset_append, Finset.mem_union]
          exact Or.inl hy
        · refine ⟨a, Finset.mem_sdiff.mpr ⟨hmem.1, by simpa using hmem.2⟩, ?_⟩
          intro hc
          rcases Finset.mem_sdiff.mp hc with ⟨-, hna⟩
          exact hna (by simp [List.mem_toFinset, ha])
      have := Finset.card_lt_card hss
      omega

theorem pcClosed_blockedList (st : Store) : PCClosed st.deps (blockedList st) := by
  unfold blockedList
  refine blockedIter_closed st.deps.length st.deps (directlyBlocked st) ?_
  calc (pcTargets st.deps \ (directlyBlocked st).toFinset).card
      ≤ (pcTargets st.deps).card := Finset.card_le_card (Finset.sdiff_subset)
    _ ≤ ((st.deps.filter (fun d => d.dtype == DepParentChild)).map
          (fun d => d.issueID)).length := List.toFinset_card_le _
    _ ≤ st.deps.length := by
          rw [List.length_map]; exact List.length_filter_le _ _

theorem mem_directlyBlocked_of_direct (st : Store) (d : Dependency) (b : Issue)
    (hd : d ∈ st.deps) (hty : d.dtype = DepBlocks) (hb : b ∈ st.issues)
    (hid : b.id = d.dependsOnID) (hcl : b.status ≠ StatusClosed) :
    d.issueID ∈ directlyBlocked st := by
  unfold directlyBlocked
  refine List.mem_map.mpr ⟨d, List.mem_filter.mpr ⟨hd, ?_⟩, rfl⟩
  simp only [Bool.and_eq_true, beq_iff_eq, List.any_eq_true, bne_iff_ne]
  exact ⟨hty, b, hb, hid, hcl⟩

theorem directlyBlocked_sound (st : Store) {y : String} (h : y ∈ directlyBlocked st) :
    Blocked st y := by
  unfold directlyBlocked at h
  rcases List.mem_map.mp h with ⟨d, hd, rfl⟩
  rcases List.mem_filter.mp hd with ⟨hdm, hpred⟩
  simp only [Bool.and_eq_true, beq_iff_eq, List.any_eq_true, bne_iff_ne] at hpred
  obtain ⟨hty, b, hb, hid, hcl⟩ := hpred
  exact Blocked.direct d b hdm hty hb hid hcl

/-- The iterated blocked computation agrees with the specification's least
fixed point. -/
theorem mem_blockedList_iff (st : Store) (x : String) :
    x ∈ blockedList st ↔ Blocked st x := by
  constructor
  · intro h
    exact blockedIter_sound st st.deps.length (directlyBlocked st)
      (fun y hy => directlyBlocked_sound st hy) h
  · intro h
    induction h with
    | direct d b hd hty hb hid hcl =>
      exact mem_blockedIter_of_mem_acc st.deps.length st.deps _
        (mem_directlyBlocked_of_direct st d b hd hty hb hid hcl)
    | child d hd hty _ ih =>
      exact pcClosed_blockedList st d hd hty ih

/-! ### Ready-work membership and ordering -/

theorem getReadyWork_sorted (st : Store) : List.Sorted issueLE (GetReadyWork st) :=
  List.sorted_insertionSort issueLE _

theorem mem_getReadyWork_iff (st : Store) (i : Issue) :
    i ∈ GetReadyWork st ↔
      i ∈ st.issues ∧ (i.status = StatusOpen ∨ i.status = StatusInProgress) ∧
        ¬ Blocked st i.id := by
  unfold GetReadyWork
  rw [(List.perm_insertionSort issueLE _).mem_iff, List.mem_filter]
  simp only [Bool.and_eq_true, Bool.or_eq_true, beq_iff_eq, Bool.not_eq_true']
  constructor
  · rintro ⟨hm, hs, hb⟩
    refine ⟨hm, hs, ?_⟩
    rw [← mem_blockedList_iff]
    simp at hb
    exact hb
  · rintro ⟨hm, hs, hb⟩
    refine ⟨hm, hs, ?_⟩
    rw [← mem_blockedList_iff] at hb
    simp
    exact hb

/-! ### Claim C1 -/

/-- C1: for every store state, the ready-work computation returns exactly
the set of issues with status open or in_progress minus the blocked set —
the least fixed point seeded with the directly blocked issues (dependents
of `blocks` edges whose prerequisite exists with status ≠ closed) and
closed under propagation along `parent-child` edges — ordered by priority
ascending then created_at ascending. -/
theorem ready_work_computes_unblocked_sorted (st : Store) :
    (∀ i, i ∈ GetReadyWork st ↔
        i ∈ st.issues ∧ (i.status = StatusOpen ∨ i.status = StatusInProgress) ∧
          ¬ Blocked st i.id)
    ∧ List.Sorted issueLE (GetReadyWork st) :=
  ⟨fun i => mem_getReadyWork_iff st i, getReadyWork_sorted st⟩

/-! ### Claim C2 -/

theorem not_blocked_of_all_related (st : Store)
    (h : ∀ d ∈ st.deps, d.dtype = DepRelated) (x : String) : ¬ Blocked st x := by
  intro hb
  induction hb with
  | direct d b hd hty _ _ _ => exact absurd (h d hd) (by rw [hty]; decide)
  | child d hd hty _ _ => exact absurd (h d hd) (by rw [hty]; decide)

theorem blocked_filter_not_related_iff (st : Store) (x : String) :
    Blocked { st with deps := st.deps.filter (fun d => !(d.dtype == DepRelated)) } x ↔
      Blocked st x := by
  constructor
  · intro h
    induction h with
    | direct d b hd hty hb hid hcl =>
      exact Blocked.direct d b (List.mem_filter.mp hd).1 hty hb hid hcl
    | child d hd hty _ ih => exact Blocked.child d (List.mem_filter.mp hd).1 hty ih
  · intro h
    induction h with
    | direct d b hd hty hb hid hcl =>
      refine Blocked.direct d b (List.mem_filter.mpr ⟨hd, ?_⟩) hty hb hid hcl
      simp [hty, DepBlocks, DepRelated]
    | child d hd hty _ ih =>
      refine Blocked.child d (List.mem_filter.mpr ⟨hd, ?_⟩) hty ih
      simp [hty, DepParentChild, DepRelated]

/-- C2: a `related` dependency edge never contributes to the blocked set
(removing all `related` edges leaves the blocked set unchanged), and in a
store whose only edges are `related` edges every open or in-progress
issue — in particular each of two open issues joined only by a `related`
edge — appears in the ready-work result. -/
theorem related_edges_never_block :
    (∀ (st : Store) (x : String),
        Blocked { st with deps := st.deps.filter (fun d => !(d.dtype == DepRelated)) } x ↔
          Blocked st x)
    ∧ ∀ (st : Store), (∀ d ∈ st.deps, d.dtype = DepRelated) →
        ∀ i ∈ st.issues, (i.status = StatusOpen ∨ i.status = StatusInProgress) →
          i ∈ GetReadyWork st := by
  refine ⟨blocked_filter_not_related_iff, fun st h i hi hs => ?_⟩
  exact (mem_getReadyWork_iff st i).mpr ⟨hi, hs, not_blocked_of_all_related st h i.id⟩

theorem related_edges_never_block_witness :
    (∀ i ∈ relatedPairStore.issues,
        (i.status = StatusOpen ∨ i.status = StatusInProgress) →
          i ∈ GetReadyWork relatedPairStore)
    ∧ (GetReadyWork relatedPairStore).map (fun i => i.id) = ["bl-0001", "bl-0002"] :=
  ⟨related_edges_never_block.2 relatedPairStore (by decide), by decide⟩

/-! ### Claim C3 -/

/-- C3: in any store containing a cycle of `blocks` edges whose members
all exist with status ≠ closed, no cycle member appears in the ready-work
result; and edge creation does not reject an edge that completes a cycle
(adding the back edge of an existing `blocks` edge succeeds whenever the
triple is valid and not a duplicate). -/
theorem blocks_cycle_all_blocked_and_not_rejected :
    (∀ (st : Store) (ids : List String), ids ≠ [] →
        (∀ id ∈ ids, ∃ i ∈ st.issues, i.id = id ∧ i.status ≠ StatusClosed) →
        (∀ k : Fin ids.length, ∃ d ∈ st.deps, d.dtype = DepBlocks ∧
            d.issueID = ids.get k ∧
            d.dependsOnID = ids.get ⟨(k.val + 1) % ids.length, Nat.mod_lt _ k.pos⟩) →
        ∀ id ∈ ids, ∀ i ∈ GetReadyWork st, i.id ≠ id)
    ∧ ∀ (st : Store) (a b : String) (now : Nat),
        a ≠ "" → b ≠ "" → a ≠ b →
        (∃ d ∈ st.deps, d.issueID = b ∧ d.dependsOnID = a ∧ d.dtype = DepBlocks) →
        (¬ ∃ d ∈ st.deps, d.issueID = a ∧ d.dependsOnID = b ∧ d.dtype = DepBlocks) →
        ∃ st', AddDependency st a b DepBlocks now = .ok st' ∧
          NewDependency a b DepBlocks now ∈ st'.deps ∧
          (∃ d ∈ st'.deps, d.issueID = b ∧ d.dependsOnID = a ∧ d.dtype = DepBlocks) := by
  constructor
  · intro st ids hne hiss hedges id hid i hrdy hii
    rcases List.mem_iff_get.mp hid with ⟨k, rfl⟩
    rcases hedges k with ⟨d, hd, hty, hdi, hdo⟩
    have hnext : ids.get ⟨(k.val + 1) % ids.length, Nat.mod_lt _ k.pos⟩ ∈ ids :=
      List.get_mem _ _ _
    rcases hiss _ hnext with ⟨bi, hbi, hbid, hbst⟩
    have hblocked : Blocked st (ids.get k) := by
      rw [← hdi]
      exact Blocked.direct d bi hd hty hbi (by rw [hbid, hdo]) hbst
    have := ((mem_getReadyWork_iff st i).mp hrdy).2.2
    rw [hii] at this
    exact this hblocked
  · intro st a b now ha hb hab hcycle hdup
    refine ⟨{ st with deps := st.deps ++ [NewDependency a b DepBlocks now] }, ?_, ?_, ?_⟩
    · unfold AddDependency NewDependency Dependency.Validate
      simp only [beq_iff_eq]
      rw [if_neg ha, if_neg hb, if_neg]
      · rw [if_neg hab]
        simp only
        rw [if_neg]
        intro hany
        rcases List.any_eq_true.mp hany with ⟨d, hd, hp⟩
        simp only [Bool.and_eq_true, beq_iff_eq] at hp
        exact hdup ⟨d, hd, hp.1.1, hp.1.2, hp.2⟩
      · simp [DepType.Valid]
    · exact List.mem_append_right _ (List.mem_singleton.mpr rfl)
    · rcases hcycle with ⟨d, hd, h1, h2, h3⟩
      exact ⟨d, List.mem_append_left _ hd, h1, h2, h3⟩

theorem blocks_cycle_all_blocked_and_not_rejected_witness :
    (∀ id ∈ ["bl-0001", "bl-0002"],
        ∀ i ∈ GetReadyWork
          { blocksCycleStore with
              deps := blocksCycleStore.deps ++ [⟨"bl-0001", "bl-0002", "blocks", 9⟩] },
          i.id ≠ id)
    ∧ ∃ st', AddDependency blocksCycleStore "bl-0001" "bl-0002" DepBlocks 9 = .ok st' ∧
        NewDependency "bl-0001" "bl-0002" DepBlocks 9 ∈ st'.deps ∧
        (∃ d ∈ st'.deps, d.issueID = "bl-0002" ∧ d.dependsOnID = "bl-0001" ∧
          d.dtype = DepBlocks) :=
  ⟨blocks_cycle_all_blocked_and_not_rejected.1
      { blocksCycleStore with
          deps := blocksCycleStore.deps ++ [⟨"bl-0001", "bl-0002", "blocks", 9⟩] }
      ["bl-0001", "bl-0002"] (by decide) (by decide) (by decide),
   blocks_cycle_all_blocked_and_not_rejected.2 blocksCycleStore "bl-0001" "bl-0002" 9
      (by decide) (by decide) (by decide) (by decide) (by decide)⟩

/-! ### Claim C6 -/

/-- C6: deleting an existing issue removes, in one transaction, the issue
and every dependency edge in which it appears as either endpoint;
deleting a non-existent id fails with the not-found error and leaves the
store unchanged (the dependency deletion is rolled back). -/
theorem delete_issue_atomic (st : Store) (id : String) :
    ((∃ i ∈ st.issues, i.id = id) →
      ∃ st', DeleteIssue st id = .ok st' ∧
        (∀ i, i ∈ st'.issues ↔ i ∈ st.issues ∧ i.id ≠ id) ∧
        (∀ d, d ∈ st'.deps ↔ d ∈ st.deps ∧ d.issueID ≠ id ∧ d.dependsOnID ≠ id))
    ∧ ((¬ ∃ i ∈ st.issues, i.id = id) →
        runDeleteIssue st id = (st, .error "issue not found")) := by
  constructor
  · rintro ⟨i, hi, hid⟩
    unfold DeleteIssue
    rw [if_pos (List.any_eq_true.mpr ⟨i, hi, by simp [hid]⟩)]
    refine ⟨_, rfl, fun j => ?_, fun d => ?_⟩
    · rw [List.mem_filter]
      simp
    · rw [List.mem_filter]
      simp [not_or]
  · intro h
    unfold runDeleteIssue DeleteIssue
    rw [if_neg]
    intro hany
    rcases List.any_eq_true.mp hany with ⟨i, hi, hp⟩
    exact h ⟨i, hi, by simpa using hp⟩

theorem delete_issue_atomic_witness :
    (∃ st', DeleteIssue deleteDemoStore "bl-0001" = .ok st' ∧
      (∀ i, i ∈ st'.issues ↔ i ∈ deleteDemoStore.issues ∧ i.id ≠ "bl-0001") ∧
      (∀ d, d ∈ st'.deps ↔ d ∈ deleteDemoStore.deps ∧ d.issueID ≠ "bl-0001" ∧
        d.dependsOnID ≠ "bl-0001"))
    ∧ runDeleteIssue deleteDemoStore "bl-9999" = (deleteDemoStore, .error "issue not found") :=
  ⟨(delete_issue_atomic deleteDemoStore "bl-0001").1 ⟨deleteDemoStore.issues.head (by decide),
      by decide, by decide⟩,
   (delete_issue_atomic deleteDemoStore "bl-9999").2 (by decide)⟩

/-! ### Claim C7 -/

/-- C7: closing with a resolution outside {empty, done, wontfix,
duplicate} fails with the invalid-resolution error before any store
mutation; a valid resolution atomically sets status = closed,
closed_at = now, updated_at = now and resolution together on the matching
row while leaving every other row unchanged; and closing an already
closed issue is idempotent and does not error. -/
theorem close_issue_resolution_and_idempotent (st : Store) (id : String)
    (res : Resolution) (now : Nat) :
    (¬ res.Valid = true → CloseIssueCmd st id res now = .error "invalid resolution")
    ∧ (res.Valid = true → (∃ i ∈ st.issues, i.id = id) →
        CloseIssueCmd st id res now = .ok (CloseIssue st id res now))
    ∧ (∀ i ∈ st.issues, i.id = id →
        { i with status := StatusClosed, updatedAt := now, closedAt := some now,
                 resolution := res } ∈ (CloseIssue st id res now).issues)
    ∧ (∀ i ∈ st.issues, i.id ≠ id → i ∈ (CloseIssue st id res now).issues)
    ∧ CloseIssue (CloseIssue st id res now) id res now = CloseIssue st id res now := by
  refine ⟨?_, ?_, ?_, ?_, ?_⟩
  · intro h
    unfold CloseIssueCmd
    rw [if_pos]
    simp [h]
  · rintro hv ⟨i, hi, hid⟩
    unfold CloseIssueCmd
    rw [if_neg (by simp [hv])]
    have hj : ∃ j, GetIssue st id = .ok j := by
      unfold GetIssue
      cases hf : st.issues.find? (fun i => i.id == id) with
      | none =>
        exfalso
        have h2 := List.find?_eq_none.mp hf i hi
        simp [hid] at h2
      | some j => exact ⟨j, rfl⟩
    rcases hj with ⟨j, hj⟩
    rw [hj]
  · intro i hi hid
    unfold CloseIssue
    simp only
    exact List.mem_map.mpr ⟨i, hi, by rw [if_pos (by simp [hid])]⟩
  · intro i hi hid
    unfold CloseIssue
    simp only
    exact List.mem_map.mpr ⟨i, hi, by rw [if_neg (by simp [hid])]⟩
  · unfold CloseIssue
    simp only [List.map_map]
    refine congrArg (fun l => Store.mk l st.deps) (List.map_congr_left ?_)
    intro i _
    by_cases h : i.id == id <;> simp [Function.comp, h]

theorem close_issue_resolution_and_idempotent_witness :
    CloseIssueCmd closeDemoStore "bl-0001" "bogus" 7 = .error "invalid resolution"
    ∧ CloseIssueCmd closeDemoStore "bl-0001" ResolutionWontfix 7 =
        .ok (CloseIssue closeDemoStore "bl-0001" ResolutionWontfix 7)
    ∧ (⟨"bl-0001", "Task A", "", StatusClosed, 2, "task", 1, 7, some 7,
        ResolutionWontfix⟩ : Issue) ∈
        (CloseIssue closeDemoStore "bl-0001" ResolutionWontfix 7).issues
    ∧ CloseIssue (CloseIssue closeDemoStore "bl-0001" ResolutionWontfix 7) "bl-0001"
        ResolutionWontfix 7 = CloseIssue closeDemoStore "bl-0001" ResolutionWontfix 7 :=
  ⟨(close_issue_resolution_and_idempotent closeDemoStore "bl-0001" "bogus" 7).1 (by decide),
   (close_issue_resolution_and_idempotent closeDemoStore "bl-0001" ResolutionWontfix 7).2.1
      (by decide) ⟨closeDemoStore.issues.head (by decide), by decide, by decide⟩,
   by decide,
   (close_issue_resolution_and_idempotent closeDemoStore "bl-0001" ResolutionWontfix
      7).2.2.2.2⟩

/-! ### Claim C8 -/

/-- C8: updating a valid issue whose id is absent succeeds as a silent
no-op and removing an absent dependency triple succeeds silently, while
the other lookup operations of the store contract reject a missing
target: get fails with not-found, delete fails with not-found leaving the
store unchanged, and the close operation (whose resolution check lives in
the command layer) fails with not-found. -/
theorem update_and_remove_silent_noop_on_missing (st : Store) (issue : Issue)
    (id a b : String) (ty : DepType) (res : Resolution) (now : Nat) :
    (issue.Validate = .ok () → (¬ ∃ i ∈ st.issues, i.id = issue.id) →
        UpdateIssue st issue now = .ok st)
    ∧ ((¬ ∃ d ∈ st.deps, d.issueID = a ∧ d.dependsOnID = b ∧ d.dtype = ty) →
        RemoveDependency st a b ty = st)
    ∧ ((¬ ∃ i ∈ st.issues, i.id = id) → GetIssue st id = .error "issue not found")
    ∧ ((¬ ∃ i ∈ st.issues, i.id = id) →
        runDeleteIssue st id = (st, .error "issue not found"))
    ∧ (res.Valid = true → (¬ ∃ i ∈ st.issues, i.id = id) →
        CloseIssueCmd st id res now = .error "issue not found") := by
  have hget : (¬ ∃ i ∈ st.issues, i.id = id) → GetIssue st id = .error "issue not found" := by
    intro h
    unfold GetIssue
    rw [List.find?_eq_none.mpr]
    intro i hi
    simp only [beq_iff_eq]
    exact fun hc => h ⟨i, hi, hc⟩
  refine ⟨?_, ?_, hget, ?_, ?_⟩
  · intro hval h
    unfold UpdateIssue
    rw [hval]
    simp only [Except.ok.injEq]
    have hmap : st.issues.map (fun i =>
        if i.id == issue.id then
          { i with title := issue.title, description := issue.description,
                   status := issue.status, priority := issue.priority,
                   itype := issue.itype, updatedAt := now,
                   closedAt := issue.closedAt, resolution := issue.resolution }
        else i) = st.issues := by
      refine map_eq_self_of_mem ?_
      intro i hi
      rw [if_neg]
      simp only [beq_iff_eq]
      exact fun hc => h ⟨i, hi, hc⟩
    rw [hmap]
  · intro h
    unfold RemoveDependency
    have hfil : st.deps.filter (fun d =>
        !(d.issueID == a && d.dependsOnID == b && d.dtype == ty)) = st.deps := by
      rw [List.filter_eq_self]
      intro d hd
      have hne : ¬ (d.issueID == a && d.dependsOnID == b && d.dtype == ty) = true := by
        intro hc
        simp only [Bool.and_eq_true, beq_iff_eq] at hc
        exact h ⟨d, hd, hc.1.1, hc.1.2, hc.2⟩
      simp only [Bool.not_eq_true']
      exact Bool.eq_false_iff.mpr hne
    rw [hfil]
  · intro h
    unfold runDeleteIssue DeleteIssue
    rw [if_neg]
    intro hany
    rcases List.any_eq_true.mp hany with ⟨i, hi, hp⟩
    exact h ⟨i, hi, by simpa using hp⟩
  · intro hv h
    unfold CloseIssueCmd
    rw [if_neg (by simp [hv]), hget h]

theorem update_and_remove_silent_noop_on_missing_witness :
    UpdateIssue missingDemoStore missingDemoIssue 9 = .ok missingDemoStore
    ∧ RemoveDependency missingDemoStore "bl-0001" "bl-0002" "related" = missingDemoStore
    ∧ GetIssue missingDemoStore "bl-9999" = .error "issue not found"
    ∧ runDeleteIssue missingDemoStore "bl-9999" = (missingDemoStore, .error "issue not found")
    ∧ CloseIssueCmd missingDemoStore "bl-9999" ResolutionDone 9 = .error "issue not found" :=
  ⟨(update_and_remove_silent_noop_on_missing missingDemoStore missingDemoIssue "bl-9999"
      "bl-0001" "bl-0002" "related" ResolutionDone 9).1 (by rfl) (by decide),
   (update_and_remove_silent_noop_on_missing missingDemoStore missingDemoIssue "bl-9999"
      "bl-0001" "bl-0002" "related" ResolutionDone 9).2.1 (by decide),
   (update_and_remove_silent_noop_on_missing missingDemoStore missingDemoIssue "bl-9999"
      "bl-0001" "bl-0002" "related" ResolutionDone 9).2.2.1 (by decide),
   (update_and_remove_silent_noop_on_missing missingDemoStore missingDemoIssue "bl-9999"
      "bl-0001" "bl-0002" "related" ResolutionDone 9).2.2.2.1 (by decide),
   (update_and_remove_silent_noop_on_missing missingDemoStore missingDemoIssue "bl-9999"
      "bl-0001" "bl-0002" "related" ResolutionDone 9).2.2.2.2 (by decide) (by decide)⟩

/-! ### Claim C9 -/

/-- C9: issue validation fails exactly when the trimmed title is empty,
or the status is outside {open, in_progress, closed}, or the type is
outside {task, bug, feature, epic}, or the resolution is outside
{empty, done, wontfix, duplicate} (so the empty string is valid), or the
priority lies outside [0, 4]. -/
theorem validate_issue_fails_iff (i : Issue) :
    (∃ e, i.Validate = .error e) ↔
      (trimSpace i.title = "" ∨
        ¬ (i.status = StatusOpen ∨ i.status = StatusInProgress ∨ i.status = StatusClosed) ∨
        ¬ (i.itype = IssueTypeTask ∨ i.itype = IssueTypeBug ∨ i.itype = IssueTypeFeature ∨
            i.itype = IssueTypeEpic) ∨
        ¬ (i.resolution = "" ∨ i.resolution = ResolutionDone ∨
            i.resolution = ResolutionWontfix ∨ i.resolution = ResolutionDuplicate) ∨
        i.priority < 0 ∨ i.priority > 4) := by
  unfold Issue.Validate Status.Valid IssueType.Valid Resolution.Valid
  split_ifs with h1 h2 h3 h4 h5 <;> simp_all <;> tauto

/-! ### Claim C10 -/

/-- C10 counterexample: in `danglingCexStore` the open issue `bl-x`
satisfies the claim's hypothesis — its only outgoing `blocks` edge points
at `bl-ghost`, which is not an issue of the store — yet `bl-x` does not
appear in the ready-work result, because its `parent-child` edge reaches
the blocked parent `bl-p`.  The claim as stated is therefore false. -/
theorem dangling_blocks_cex :
    ∃ x ∈ danglingCexStore.issues,
      x.status = StatusOpen ∧
      (∀ d ∈ danglingCexStore.deps, d.issueID = x.id → d.dtype = DepBlocks →
        ¬ ∃ i ∈ danglingCexStore.issues, i.id = d.dependsOnID) ∧
      x ∉ GetReadyWork danglingCexStore := by
  refine ⟨⟨"bl-x", "Task X", "", "open", 2, "task", 1, 1, none, ""⟩, by decide,
    rfl, by decide, by decide⟩

/-- C10 amended: an open or in_progress issue whose outgoing `blocks`
edges all point at ids not present as issues, and whose `parent-child`
edges do not reach a blocked prerequisite, appears in the ready-work
result — a `blocks` edge toward a non-existent prerequisite never blocks
its dependent. -/
theorem dangling_blocks_edge_never_blocks (st : Store) (x : Issue)
    (hx : x ∈ st.issues) (hs : x.status = StatusOpen ∨ x.status = StatusInProgress)
    (hblocks : ∀ d ∈ st.deps, d.issueID = x.id → d.dtype = DepBlocks →
        ¬ ∃ i ∈ st.issues, i.id = d.dependsOnID)
    (hpc : ∀ d ∈ st.deps, d.issueID = x.id → d.dtype = DepParentChild →
        ¬ Blocked st d.dependsOnID) :
    x ∈ GetReadyWork st := by
  refine (mem_getReadyWork_iff st x).mpr ⟨hx, hs, ?_⟩
  intro hb
  generalize hgen : x.id = y at hb
  cases hb with
  | direct d b hd hty hbm hbid hbcl =>
    exact hblocks d hd hgen.symm hty ⟨b, hbm, hbid⟩
  | child d hd hty hpar =>
    exact hpc d hd hgen.symm hty hpar

theorem dangling_blocks_edge_never_blocks_witness :
    (⟨"bl-x", "Task X", "", "open", 2, "task", 1, 1, none, ""⟩ : Issue) ∈
      GetReadyWork danglingDemoStore :=
  dangling_blocks_edge_never_blocks danglingDemoStore
    ⟨"bl-x", "Task X", "", "open", 2, "task", 1, 1, none, ""⟩
    (by decide) (Or.inl rfl) (by decide)
    (by
      intro d hd h1 h2
      simp only [danglingDemoStore, List.mem_singleton] at hd
      subst hd
      exact absurd h2 (by decide))

/-! ### Claim C4 -/

theorem importLoop_append (now : Nat) :
    ∀ (l1 l2 : List (Option IssueExport)) (st : Store) (stats : ImportStats) (n : Nat),
      importLoop now st stats n (l1 ++ l2) =
        match importLoop now st stats n l1 with
        | .error e => .error e
        | .ok (st', stats') => importLoop now st' stats' (n + l1.length) l2 := by
  intro l1
  induction l1 with
  | nil =>
    intro l2 st stats n
    simp [importLoop]
  | cons hd tl ih =>
    intro l2 st stats n
    cases hd with
    | none => simp [importLoop]
    | some ex =>
      simp only [List.cons_append, importLoop]
      cases importRecord st ex n now with
      | error e => rfl
      | ok r =>
        obtain ⟨st', created⟩ := r
        simp only [List.append_eq]
        rw [ih]
        simp only [List.length_cons]
        rw [show n + (tl.length + 1) = n + 1 + tl.length by omega]

theorem importLoop_ok_all_parse (now : Nat) :
    ∀ (l : List (Option IssueExport)) (st : Store) (stats : ImportStats) (n : Nat) (r),
      importLoop now st stats n l = .ok r → ∀ k, l.get? k ≠ some none := by
  intro l
  induction l with
  | nil =>
    intro st stats n r _ k
    simp
  | cons hd tl ih =>
    intro st stats n r hok k
    cases hd with
    | none => simp [importLoop] at hok
    | some ex =>
      simp only [importLoop] at hok
      cases hrec : importRecord st ex n now with
      | error e => rw [hrec] at hok; exact absurd hok (by simp)
      | ok p =>
        rw [hrec] at hok
        cases k with
        | zero => simp
        | succ m => simpa using ih _ _ _ _ hok m

/-- C4: the import is transactional — whenever it returns an error (a
parse failure or any per-record store failure) the observable store state
equals the pre-import state; a malformed line always produces an error;
and if the records before a malformed line process cleanly, the error is
the parse error carrying that line's (1-based) number. -/
theorem import_error_leaves_store_unchanged (st : Store)
    (lines : List (Option IssueExport)) (now : Nat) :
    (∀ e, (runImport st lines now).2 = .error e → (runImport st lines now).1 = st)
    ∧ ((∃ k, lines.get? k = some none) → ∃ e, (runImport st lines now).2 = .error e)
    ∧ (∀ k st1 stats1, lines.get? k = some none →
        ImportFromJSONL st (lines.take k) now = .ok (st1, stats1) →
        runImport st lines now = (st, .error (.parseError (k + 1)))) := by
  refine ⟨?_, ?_, ?_⟩
  · intro e he
    unfold runImport at *
    cases him : ImportFromJSONL st lines now with
    | error e2 => rfl
    | ok r =>
      obtain ⟨st2, stats2⟩ := r
      rw [him] at he
      exact absurd he (by simp)
  · rintro ⟨k, hk⟩
    unfold runImport
    cases him : ImportFromJSONL st lines now with
    | error e2 => exact ⟨e2, rfl⟩
    | ok r =>
      exact absurd hk (importLoop_ok_all_parse now lines st ⟨0, 0⟩ 1 r him k)
  · intro k st1 stats1 hk htake
    have hklen : k < lines.length := by
      by_contra hc
      rw [List.get?_eq_none.mpr (by omega)] at hk
      exact absurd hk (by simp)
    have hsplit : lines = lines.take k ++ lines.drop k := (List.take_append_drop k lines).symm
    have hdrop : ∃ rest, lines.drop k = none :: rest := by
      have := List.get?_drop lines k 0
      rw [Nat.add_zero, hk] at this
      cases hd : lines.drop k with
      | nil => rw [hd] at this; exact absurd this.symm (by simp)
      | cons a rest =>
        rw [hd] at this
        simp only [List.get?] at this
        exact ⟨rest, by rw [Option.some.inj this]⟩
    rcases hdrop with ⟨rest, hdrop⟩
    unfold runImport ImportFromJSONL at *
    conv_lhs => rw [hsplit]
    rw [importLoop_append, htake, hdrop]
    have hlen : (lines.take k).length = k := List.length_take_of_le (by omega)
    rw [hlen]
    simp only [importLoop]
    rw [show 1 + k = k + 1 by omega]

theorem import_error_leaves_store_unchanged_witness :
    runImport Store.empty importDemoLines 5 = (Store.empty, .error (.parseError 2)) :=
  (import_error_leaves_store_unchanged Store.empty importDemoLines 5).2.2 1
    ⟨[issueFromExport importDemoRecord], []⟩ ⟨1, 0⟩ (by decide) (by decide)

/-! ### Claim C5: round-trip machinery -/

theorem dep_validate_ok_iff (d : Dependency) :
    d.Validate = .ok () ↔
      (d.issueID ≠ "" ∧ d.dependsOnID ≠ "" ∧ d.dtype.Valid = true ∧
        d.issueID ≠ d.dependsOnID) := by
  unfold Dependency.Validate
  split_ifs with h1 h2 h3 h4 <;> simp_all

theorem issueFromExport_toIssueExport (i : Issue) (ds : List Dependency) :
    issueFromExport (toIssueExport i ds) = i := rfl

theorem addExportDeps_ok (lineNo now : Nat) :
    ∀ (ds : List Dependency) (acc : Store) (id : String),
      (∀ d ∈ ds, d.issueID = id ∧ d.Validate = .ok ()) →
      ((acc.deps ++ ds).map depKey).Nodup →
      addExportDeps acc id (ds.map (fun d => ⟨d.dependsOnID, d.dtype⟩)) lineNo now =
        .ok ⟨acc.issues,
          acc.deps ++ ds.map (fun d => NewDependency d.issueID d.dependsOnID d.dtype now)⟩ := by
  intro ds
  induction ds with
  | nil => intro acc id _ _; simp [addExportDeps]
  | cons d rest ih =>
    intro acc id hval hnd
    obtain ⟨hdid, hdval⟩ := hval d (by simp)
    have hv : (NewDependency id d.dependsOnID d.dtype now).Validate = .ok () := by
      rw [dep_validate_ok_iff] at hdval ⊢
      rcases hdval with ⟨h1, h2, h3, h4⟩
      exact ⟨hdid ▸ h1, h2, h3, hdid ▸ h4⟩
    have hdup : acc.deps.any (fun d' =>
        d'.issueID == id && d'.dependsOnID == d.dependsOnID && d'.dtype == d.dtype)
          = false := by
      refine Bool.eq_false_iff.mpr ?_
      intro hc
      rcases List.any_eq_true.mp hc with ⟨d', hd', hp⟩
      simp only [Bool.and_eq_true, beq_iff_eq] at hp
      have hk : depKey d' = depKey d := by
        unfold depKey
        rw [hp.1.1, hp.1.2, hp.2, hdid]
      rw [List.map_append, List.nodup_append] at hnd
      exact hnd.2.2 (List.mem_map.mpr ⟨d', hd', rfl⟩)
        (hk ▸ List.mem_map.mpr ⟨d, List.mem_cons_self _ _, rfl⟩)
    simp only [List.map_cons, addExportDeps, AddDependency]
    rw [hv]
    simp only [hdup, Bool.false_eq_true, if_false]
    have hnd' : ((({ acc with deps := acc.deps ++
        [NewDependency id d.dependsOnID d.dtype now] } : Store).deps ++ rest).map
          depKey).Nodup := by
      have heq : (((acc.deps ++ [NewDependency id d.dependsOnID d.dtype now]) ++ rest).map
          depKey) = ((acc.deps ++ d :: rest).map depKey) := by
        rw [List.append_assoc]
        simp [depKey, NewDependency, hdid]
      simp only
      rw [heq]
      exact hnd
    rw [ih _ id (fun d' hd' => hval d' (by simp [hd'])) hnd']
    simp only [Except.ok.injEq, Store.mk.injEq, true_and]
    rw [List.append_assoc]
    simp [NewDependency, hdid]

theorem importLoop_creates (now : Nat) (G : Issue → List Dependency) :
    ∀ (todo : List Issue) (acc : Store) (stats : ImportStats) (n : Nat),
      (∀ i ∈ todo, i.Validate = .ok ()) →
      (todo.map (fun i => i.id)).Nodup →
      (∀ i ∈ todo, ∀ j ∈ acc.issues, j.id ≠ i.id) →
      (∀ i ∈ todo, ∀ d ∈ G i, d.issueID = i.id ∧ d.Validate = .ok ()) →
      ((acc.deps ++ (todo.map G).flatten).map depKey).Nodup →
      importLoop now acc stats n (todo.map (fun i => some (toIssueExport i (G i)))) =
        .ok ({ issues := acc.issues ++ todo,
               deps := acc.deps ++ ((todo.map G).flatten).map
                 (fun d => NewDependency d.issueID d.dependsOnID d.dtype now) },
             ⟨stats.created + todo.length, stats.updated⟩) := by
  intro todo
  induction todo with
  | nil =>
    intro acc stats n _ _ _ _ _
    simp [importLoop]
  | cons i rest ih =>
    intro acc stats n hvali hnodup hfresh hG hkeys
    simp only [List.map_cons, importLoop, importRecord]
    have hget : GetIssue acc i.id = .error "issue not found" := by
      unfold GetIssue
      rw [List.find?_eq_none.mpr]
      intro j hj
      simp only [beq_iff_eq]
      exact hfresh i (by simp) j hj
    have hcreate : CreateIssue acc (issueFromExport (toIssueExport i (G i))) =
        .ok { acc with issues := acc.issues ++ [i] } := by
      rw [issueFromExport_toIssueExport]
      unfold CreateIssue
      rw [hvali i (by simp)]
      rw [if_neg]
      intro hc
      rcases List.any_eq_true.mp hc with ⟨j, hj, hp⟩
      exact hfresh i (by simp) j hj (by simpa using hp)
    have hkeys1 : ((({ acc with issues := acc.issues ++ [i] } : Store).deps ++ G i).map
        depKey).Nodup := by
      simp only
      refine List.Nodup.sublist (List.Sublist.map depKey ?_) hkeys
      rw [List.map_cons, List.flatten_cons, ← List.append_assoc]
      exact List.sublist_append_left _ _
    have hadd := addExportDeps_ok n now (G i) { acc with issues := acc.issues ++ [i] }
      i.id (hG i (by simp)) hkeys1
    have hexdeps : (toIssueExport i (G i)).dependencies =
        (G i).map (fun d => ⟨d.dependsOnID, d.dtype⟩) := rfl
    have hexid : (toIssueExport i (G i)).id = i.id := rfl
    simp only [hget, hexdeps, hexid, hcreate, hadd, if_true]
    rw [ih ⟨acc.issues ++ [i],
        acc.deps ++ (G i).map (fun d => NewDependency d.issueID d.dependsOnID d.dtype now)⟩
      ⟨stats.created + 1, stats.updated⟩ (n + 1)
      (fun j hj => hvali j (by simp [hj]))
      (by simpa using hnodup.of_cons)
      (by
        intro j hj k hk
        simp only at hk
        rcases List.mem_append.mp hk with hk2 | hk2
        · exact hfresh j (by simp [hj]) k hk2
        · rw [List.mem_singleton.mp hk2]
          intro hc
          have hni : (∀ x ∈ rest, ¬ x.id = i.id) ∧
              (List.map (fun i => i.id) rest).Nodup := by simpa using hnodup
          exact hni.1 j hj hc.symm)
      (fun j hj => hG j (by simp [hj]))
      (by
        simp only
        have heq : ((acc.deps ++ (G i).map
            (fun d => NewDependency d.issueID d.dependsOnID d.dtype now)) ++
              ((rest.map G).flatten)).map depKey =
            ((acc.deps ++ (G i ++ (rest.map G).flatten)).map depKey) := by
          rw [List.append_assoc]
          simp [depKey, NewDependency]
        rw [heq]
        simpa using hkeys)]
    simp only [Except.ok.injEq, Prod.mk.injEq, Store.mk.injEq, ImportStats.mk.injEq,
      List.length_cons, List.flatten_cons, List.map_append, List.append_assoc,
      List.singleton_append, true_and, and_true]
    omega

theorem flatten_filter_groups_perm {α κ : Type} [DecidableEq κ] (key : α → κ) :
    ∀ (ids : List κ) (l : List α), ids.Nodup → (∀ a ∈ l, key a ∈ ids) →
      ((ids.map (fun b => l.filter (fun a => key a == b))).flatten).Perm l := by
  intro ids
  induction ids with
  | nil =>
    intro l _ hcov
    cases l with
    | nil => simp
    | cons a as => exact absurd (hcov a (by simp)) (by simp)
  | cons b rest ih =>
    intro l hnd hcov
    simp only [List.map_cons, List.flatten_cons]
    have hgroups : rest.map (fun c => l.filter (fun a => key a == c)) =
        rest.map (fun c => (l.filter (fun a => !(key a == b))).filter
          (fun a => key a == c)) := by
      refine List.map_congr_left ?_
      intro c hc
      have hcb : c ≠ b := fun h => (List.nodup_cons.mp hnd).1 (h ▸ hc)
      rw [List.filter_filter]
      refine List.filter_congr ?_
      intro a _
      by_cases hac : key a = c
      · subst hac
        simp [hcb]
      · simp [hac]
    rw [hgroups]
    have hcov2 : ∀ a ∈ l.filter (fun a => !(key a == b)), key a ∈ rest := by
      intro a ha
      rcases List.mem_filter.mp ha with ⟨hal, hpb⟩
      rcases List.mem_cons.mp (hcov a hal) with h | h
      · exfalso
        have hx : (key a == b) = false := by simpa using hpb
        rw [h] at hx
        simp at hx
      · exact h
    have hperm := ih (l.filter (fun a => !(key a == b))) (List.nodup_cons.mp hnd).2 hcov2
    exact (hperm.append_left _).trans (List.filter_append_perm _ l)

theorem blocked_mono (st1 st2 : Store)
    (hiss : ∀ i, i ∈ st1.issues → i ∈ st2.issues)
    (hdep : ∀ k ∈ st1.deps.map depKey, k ∈ st2.deps.map depKey) :
    ∀ x, Blocked st1 x → Blocked st2 x := by
  intro x h
  induction h with
  | direct d b hd hty hb hid hcl =>
    rcases List.mem_map.mp (hdep _ (List.mem_map.mpr ⟨d, hd, rfl⟩)) with ⟨d', hd', hk⟩
    have h1 : d'.issueID = d.issueID := congrArg (fun p => p.1) hk
    have h2 : d'.dependsOnID = d.dependsOnID := congrArg (fun p => p.2.1) hk
    have h3 : d'.dtype = d.dtype := congrArg (fun p => p.2.2) hk
    rw [← h1]
    exact Blocked.direct d' b hd' (h3.trans hty) (hiss b hb) (hid.trans h2.symm) hcl
  | child d hd hty _ ih =>
    rcases List.mem_map.mp (hdep _ (List.mem_map.mpr ⟨d, hd, rfl⟩)) with ⟨d', hd', hk⟩
    have h1 : d'.issueID = d.issueID := congrArg (fun p => p.1) hk
    have h2 : d'.dependsOnID = d.dependsOnID := congrArg (fun p => p.2.1) hk
    have h3 : d'.dtype = d.dtype := congrArg (fun p => p.2.2) hk
    rw [← h1]
    exact Blocked.child d' hd' (h3.trans hty) (h2 ▸ ih)

theorem getReadyWork_perm (st1 st2 : Store)
    (hiss : st1.issues.Perm st2.issues)
    (hdep : ∀ k, k ∈ st1.deps.map depKey ↔ k ∈ st2.deps.map depKey) :
    (GetReadyWork st1).Perm (GetReadyWork st2) := by
  have hbl : ∀ x, Blocked st1 x ↔ Blocked st2 x := fun x =>
    ⟨blocked_mono st1 st2 (fun i h => hiss.mem_iff.mp h) (fun k hk => (hdep k).mp hk) x,
     blocked_mono st2 st1 (fun i h => hiss.mem_iff.mpr h) (fun k hk => (hdep k).mpr hk) x⟩
  unfold GetReadyWork
  refine (List.perm_insertionSort issueLE _).trans
    (List.Perm.trans ?_ (List.perm_insertionSort issueLE _).symm)
  have hpred : ∀ i : Issue,
      ((i.status == StatusOpen || i.status == StatusInProgress) &&
        !((blockedList st1).contains i.id)) =
      ((i.status == StatusOpen || i.status == StatusInProgress) &&
        !((blockedList st2).contains i.id)) := by
    intro i
    have hc : ((blockedList st1).contains i.id) = ((blockedList st2).contains i.id) := by
      rw [Bool.eq_iff_iff]
      constructor
      · intro h
        have hm : i.id ∈ blockedList st1 := by simpa using h
        have : i.id ∈ blockedList st2 :=
          (mem_blockedList_iff st2 i.id).mpr ((hbl i.id).mp ((mem_blockedList_iff st1 i.id).mp hm))
        simpa using this
      · intro h
        have hm : i.id ∈ blockedList st2 := by simpa using h
        have : i.id ∈ blockedList st1 :=
          (mem_blockedList_iff st1 i.id).mpr ((hbl i.id).mpr ((mem_blockedList_iff st2 i.id).mp hm))
        simpa using this
    rw [hc]
  have hstep : st1.issues.filter (fun i =>
      (i.status == StatusOpen || i.status == StatusInProgress) &&
        !((blockedList st1).contains i.id)) |>.Perm
      (st2.issues.filter (fun i =>
        (i.status == StatusOpen || i.status == StatusInProgress) &&
          !((blockedList st1).contains i.id))) := hiss.filter _
  refine hstep.trans ?_
  rw [List.filter_congr (fun i _ => hpred i)]

set_option maxHeartbeats 1000000 in
/-- C5: exporting a populated well-formed store and importing the stream
into an empty store succeeds and yields the same issue set (a permutation
of the rows, hence equal membership) and the same ready-work result as a
set — both ready lists carry the same issues and both are sorted by
(priority, created_at); the order of issues that tie on both keys is not
fixed by the `ORDER BY` contract. -/
theorem export_import_round_trip (st : Store) (now : Nat) (h : WellFormed st) :
    ∃ st' stats,
      runImport Store.empty ((ExportToJSONL st).map some) now = (st', .ok stats) ∧
      st'.issues.Perm st.issues ∧
      (∀ i, i ∈ st'.issues ↔ i ∈ st.issues) ∧
      (GetReadyWork st').Perm (GetReadyWork st) ∧
      (∀ i, i ∈ GetReadyWork st' ↔ i ∈ GetReadyWork st) ∧
      List.Sorted issueLE (GetReadyWork st') ∧
      List.Sorted issueLE (GetReadyWork st) := by
  obtain ⟨hids, hvi, hvd, hkeys, hcov⟩ := h
  have hperm : (List.insertionSort idLE st.issues).Perm st.issues :=
    List.perm_insertionSort idLE st.issues
  have hlines : (ExportToJSONL st).map some =
      (List.insertionSort idLE st.issues).map (fun i => some (toIssueExport i
        (st.deps.filter (fun d => d.issueID == i.id)))) := by
    unfold ExportToJSONL GetDependencies
    rw [List.map_map]
    rfl
  have hflat : (((List.insertionSort idLE st.issues).map
      (fun i => st.deps.filter (fun d => d.issueID == i.id))).flatten).Perm st.deps := by
    have hsh : (List.insertionSort idLE st.issues).map
        (fun i => st.deps.filter (fun d => d.issueID == i.id)) =
        ((List.insertionSort idLE st.issues).map (fun i => i.id)).map
          (fun b => st.deps.filter (fun d => d.issueID == b)) := by
      rw [List.map_map]
      rfl
    rw [hsh]
    refine flatten_filter_groups_perm (fun d : Dependency => d.issueID) _ _ ?_ ?_
    · exact ((hperm.map (fun i => i.id)).nodup_iff).mpr hids
    · intro d hd
      rcases hcov d hd with ⟨i, hi, hid⟩
      exact List.mem_map.mpr ⟨i, hperm.mem_iff.mpr hi, hid⟩
  have hloop := importLoop_creates now
    (fun i => st.deps.filter (fun d => d.issueID == i.id))
    (List.insertionSort idLE st.issues) Store.empty ⟨0, 0⟩ 1
    (fun i hi => hvi i (hperm.mem_iff.mp hi))
    (((hperm.map (fun i => i.id)).nodup_iff).mpr hids)
    (fun i _ j hj => absurd hj (List.not_mem_nil j))
    (fun i hi d hd => ⟨by simpa using (List.mem_filter.mp hd).2,
      hvd d (List.mem_filter.mp hd).1⟩)
    (by
      simp only [Store.empty, List.nil_append]
      exact ((hflat.map depKey).nodup_iff).mpr hkeys)
  have hkeyeq : ((((List.insertionSort idLE st.issues).map
      (fun i => st.deps.filter (fun d => d.issueID == i.id))).flatten).map
        (fun d => NewDependency d.issueID d.dependsOnID d.dtype now)).map depKey =
      (((List.insertionSort idLE st.issues).map
        (fun i => st.deps.filter (fun d => d.issueID == i.id))).flatten).map depKey := by
    rw [List.map_map]
    rfl
  have hready : (GetReadyWork ⟨List.insertionSort idLE st.issues,
      (((List.insertionSort idLE st.issues).map
        (fun i => st.deps.filter (fun d => d.issueID == i.id))).flatten).map
          (fun d => NewDependency d.issueID d.dependsOnID d.dtype now)⟩).Perm
      (GetReadyWork st) := by
    refine getReadyWork_perm _ st hperm ?_
    intro k
    simp only
    rw [hkeyeq]
    exact (hflat.map depKey).mem_iff
  refine ⟨⟨List.insertionSort idLE st.issues,
      (((List.insertionSort idLE st.issues).map
        (fun i => st.deps.filter (fun d => d.issueID == i.id))).flatten).map
          (fun d => NewDependency d.issueID d.dependsOnID d.dtype now)⟩,
    ⟨(List.insertionSort idLE st.issues).length, 0⟩, ?_, hperm, fun i => hperm.mem_iff,
    hready, fun i => hready.mem_iff, getReadyWork_sorted _, getReadyWork_sorted _⟩
  unfold runImport ImportFromJSONL
  rw [hlines, hloop]
  simp [Store.empty]

theorem export_import_round_trip_witness :
    WellFormed roundTripDemoStore ∧
    (∃ st' stats,
      runImport Store.empty ((ExportToJSONL roundTripDemoStore).map some) 9 =
        (st', Except.ok stats) ∧
      st'.issues.Perm roundTripDemoStore.issues ∧
      (∀ i, i ∈ st'.issues ↔ i ∈ roundTripDemoStore.issues) ∧
      (GetReadyWork st').Perm (GetReadyWork roundTripDemoStore) ∧
      (∀ i, i ∈ GetReadyWork st' ↔ i ∈ GetReadyWork roundTripDemoStore) ∧
      List.Sorted issueLE (GetReadyWork st') ∧
      List.Sorted issueLE (GetReadyWork roundTripDemoStore)) :=
  ⟨by unfold WellFormed; decide,
   export_import_round_trip roundTripDemoStore 9 (by unfold WellFormed; decide)⟩

end BeadsLite
